import Mathlib

/-!
# Verification of the taukit bulk-persistence layer

Shallow embedding of the chunking utility (`taukit/utils.py`), the
bulk-update orchestrator (`taukit/storage.py`, `DBStorage.bulk_update`),
the persister orchestrator (`taukit/persistence.py`,
`DBPersister.persist_many`), the Mongo update-action mapper
(`MongoStorage.updater` together with `DocumentMixin.from_dict`) and the
result aggregator (`DocumentMixin.tk__persist_many_merge_results` /
`MongoStorage.format_bulk_update_results`), with theorems about their
behaviour.

Python exceptions are modelled with `Except`; Python dictionaries are
modelled as association lists in insertion order; executors and mappers
are abstract function parameters, instrumented so that theorems can
count executor and mapper invocations.
-/

/-- Errors raised by the embedded code: `ValueError`, `KeyError`,
`TypeError`, store/driver failures and coercion failures. -/
inductive TkError where
  | valueError (msg : String)
  | keyError (k : String)
  | typeError
  | storeError (code : Nat)
  | coerceError (field : String)
deriving DecidableEq, Repr

/-- `taukit.utils.slice_chunks` inner loop: the running list `l`
accumulates items and is yielded once `len(l) >= n`; a non-empty
remainder is yielded at the end (`if l: yield l`). -/
def slice_chunks_go {α : Type _} (n : Int) : List α → List α → List (List α)
  | [], l => if l.isEmpty then [] else [l]
  | item :: rest, l =>
    let l2 := l ++ [item]
    if (l2.length : Int) ≥ n then l2 :: slice_chunks_go n rest []
    else slice_chunks_go n rest l2

/-- `taukit.utils.slice_chunks(x, n)`: yield successive n-sized chunks
from an iterable. -/
def slice_chunks {α : Type _} (x : List α) (n : Int) : List (List α) :=
  slice_chunks_go n x []

/-- `batch_size if batch_size is not None else self.batch_size`
(`DBStorage.bulk_update`, storage.py line 294). -/
def resolveBatchSize (arg dflt : Option Int) : Option Int :=
  match arg with
  | some b => some b
  | none => dflt

/-- Chunking step of `DBStorage.bulk_update` (storage.py lines 295-298):
`if not batch_size or batch_size <= 0: items = [items] else:
items = slice_chunks(items, batch_size)`; `None` and `0` are falsy. -/
def chunk_items {δ : Type _} (bs : Option Int) (items : List δ) : List (List δ) :=
  match bs with
  | none => [items]
  | some b => if b ≤ 0 then [items] else slice_chunks items b

/-- Eager list comprehension `[self.updater(item) for item in batch]`
over a fallible mapper: stops at the first raised error. -/
def mapUpdater {δ : Type _} (updater : δ → Except TkError δ) :
    List δ → Except TkError (List δ)
  | [] => .ok []
  | x :: xs =>
    match updater x with
    | .error e => .error e
    | .ok y =>
      match mapUpdater updater xs with
      | .error e => .error e
      | .ok ys => .ok (y :: ys)

/-- One chunk's retry loop in `DBStorage.bulk_update` (storage.py lines
301-317).  `fuel` is the number of remaining attempts
(`n_attempts - attempt`).  Each iteration first re-binds
`batch = [self.updater(item) for item in batch]` (outside the `try`, so
a mapper error propagates uncaught), then calls `make_bulk_update` and
the result merger inside the `try`; a caught error decrements the fuel
and retries with the re-bound (already mapped) batch, and the last
error is re-raised when attempts are exhausted.  Returns the outcome
together with the list of batches passed to the executor; `baseIdx` is
the index of the next executor call. -/
def attemptLoop {δ ρ R : Type _} (updater : δ → Except TkError δ)
    (exec : Nat → List δ → Except TkError ρ)
    (merge : Option R → ρ → Except TkError R) (baseIdx : Nat) :
    Nat → List δ → Option R → Except TkError (Option R) × List (List δ)
  | 0, _, results => (.ok results, [])
  | fuel + 1, batch, results =>
    match mapUpdater updater batch with
    | .error e => (.error e, [])
    | .ok mapped =>
      match exec baseIdx mapped with
      | .ok res =>
        match merge results res with
        | .ok r => (.ok (some r), [mapped])
        | .error e =>
          if fuel = 0 then (.error e, [mapped])
          else
            let p := attemptLoop updater exec merge (baseIdx + 1) fuel mapped results
            (p.1, mapped :: p.2)
      | .error e =>
        if fuel = 0 then (.error e, [mapped])
        else
          let p := attemptLoop updater exec merge (baseIdx + 1) fuel mapped results
          (p.1, mapped :: p.2)

/-- The `for batch in items` loop of `DBStorage.bulk_update`: chunks are
processed in order, the cumulative `results` value is threaded through,
and a fatal error aborts the remaining chunks. -/
def chunkLoop {δ ρ R : Type _} (updater : δ → Except TkError δ)
    (exec : Nat → List δ → Except TkError ρ)
    (merge : Option R → ρ → Except TkError R) (n_attempts : Nat) :
    List (List δ) → Option R → Nat → Except TkError (Option R) × List (List δ)
  | [], results, _ => (.ok results, [])
  | batch :: rest, results, baseIdx =>
    let p := attemptLoop updater exec merge baseIdx n_attempts batch results
    match p.1 with
    | .error e => (.error e, p.2)
    | .ok results2 =>
      let q := chunkLoop updater exec merge n_attempts rest results2 (baseIdx + p.2.length)
      (q.1, p.2 ++ q.2)

/-- `DBStorage.bulk_update(items, batch_size, n_attempts)` (storage.py
lines 278-318): resolve the batch size, chunk the items, run the retry
loop per chunk and return the cumulative result (initially `None`).
The second component is the full trace of batches passed to the
executor `make_bulk_update`, in call order. -/
def bulk_update {δ ρ R : Type _} (updater : δ → Except TkError δ)
    (exec : Nat → List δ → Except TkError ρ)
    (merge : Option R → ρ → Except TkError R)
    (batch_size inst_batch_size : Option Int) (n_attempts : Nat)
    (items : List δ) : Except TkError (Option R) × List (List δ) :=
  chunkLoop updater exec merge n_attempts
    (chunk_items (resolveBatchSize batch_size inst_batch_size) items) none 0

-- Persister path (`taukit/persistence.py`) -----------------------------------

/-- Instrumentation for `DBPersister.persist_many`: how many times the
`action_hook` mapper was invoked, and the batches passed to the
bulk-write executor. -/
structure PTrace (δ : Type _) where
  hookCalls : Nat
  execCalls : List (List δ)
deriving DecidableEq, Repr

/-- The comprehension `[action_hook(item) for item in items]` inside
`DocumentMixin.tk__persist_many` (mongo.py line 206): returns the
mapped list (or the first raised error) and the number of hook
invocations performed. -/
def mapHook {δ : Type _} (hook : δ → Except TkError δ) :
    List δ → Except TkError (List δ) × Nat
  | [] => (.ok [], 0)
  | x :: xs =>
    match hook x with
    | .error e => (.error e, 1)
    | .ok y =>
      let p := mapHook hook xs
      (match p.1 with
       | .error e => .error e
       | .ok ys => .ok (y :: ys), p.2 + 1)

/-- One chunk's retry loop in `DBPersister.persist_many` (persistence.py
lines 211-224).  The whole of `tk__persist_many` — mapping via
`action_hook` and the bulk write — runs inside the `try`, so a mapping
failure is caught and retried like a store failure; the chunk variable
itself is never re-bound, so every attempt re-maps the same records. -/
def pAttemptLoop {δ ρ R : Type _} (hook : δ → Except TkError δ)
    (exec : Nat → List δ → Except TkError ρ)
    (merge : Option R → ρ → Except TkError R) :
    Nat → List δ → Option R → PTrace δ → Except TkError (Option R) × PTrace δ
  | 0, _, results, tr => (.ok results, tr)
  | fuel + 1, chunk, results, tr =>
    let m := mapHook hook chunk
    match m.1 with
    | .error e =>
      if fuel = 0 then (.error e, ⟨tr.hookCalls + m.2, tr.execCalls⟩)
      else pAttemptLoop hook exec merge fuel chunk results
        ⟨tr.hookCalls + m.2, tr.execCalls⟩
    | .ok ops =>
      match exec tr.execCalls.length ops with
      | .ok res =>
        match merge results res with
        | .ok r => (.ok (some r), ⟨tr.hookCalls + m.2, tr.execCalls ++ [ops]⟩)
        | .error e =>
          if fuel = 0 then (.error e, ⟨tr.hookCalls + m.2, tr.execCalls ++ [ops]⟩)
          else pAttemptLoop hook exec merge fuel chunk results
            ⟨tr.hookCalls + m.2, tr.execCalls ++ [ops]⟩
      | .error e =>
        if fuel = 0 then (.error e, ⟨tr.hookCalls + m.2, tr.execCalls ++ [ops]⟩)
        else pAttemptLoop hook exec merge fuel chunk results
          ⟨tr.hookCalls + m.2, tr.execCalls ++ [ops]⟩

/-- The `for chunk in items` loop of `DBPersister.persist_many`. -/
def pChunkLoop {δ ρ R : Type _} (hook : δ → Except TkError δ)
    (exec : Nat → List δ → Except TkError ρ)
    (merge : Option R → ρ → Except TkError R) (n_attempts : Nat) :
    List (List δ) → Option R → PTrace δ → Except TkError (Option R) × PTrace δ
  | [], results, tr => (.ok results, tr)
  | chunk :: rest, results, tr =>
    let p := pAttemptLoop hook exec merge n_attempts chunk results tr
    match p.1 with
    | .error e => (.error e, p.2)
    | .ok results2 => pChunkLoop hook exec merge n_attempts rest results2 p.2

/-- Chunking step of `DBPersister.persist_many` (persistence.py lines
203-208): the instance default batch size is a plain integer
(constructor default `0`), and `batch_size <= 0` disables chunking. -/
def p_chunk_items {δ : Type _} (batch_size : Option Int) (inst : Int)
    (items : List δ) : List (List δ) :=
  let b := batch_size.getD inst
  if b ≤ 0 then [items] else slice_chunks items b

/-- `DBPersister.persist_many(items, action_hook, batch_size, n_attempts)`
(persistence.py lines 184-225). -/
def persist_many {δ ρ R : Type _} (hook : δ → Except TkError δ)
    (exec : Nat → List δ → Except TkError ρ)
    (merge : Option R → ρ → Except TkError R)
    (batch_size : Option Int) (inst_batch_size : Int) (n_attempts : Nat)
    (items : List δ) : Except TkError (Option R) × PTrace δ :=
  pChunkLoop hook exec merge n_attempts
    (p_chunk_items batch_size inst_batch_size items) none ⟨0, []⟩

-- Result aggregation (`taukit/db/mongo.py`, `taukit/storage.py`) --------------

/-- A value stored in a bulk-write result dictionary: a numeric counter
or a list of error entries (error entries abstracted as strings). -/
inductive Val where
  | num (n : Int)
  | list (xs : List String)
deriving DecidableEq, Repr

/-- A Python dictionary from category name to value, as an association
list in insertion order with unique keys. -/
abbrev Dict := List (String × Val)

/-- Dictionary lookup (`d[k]` / `k in d`). -/
def dictGet (k : String) : Dict → Option Val
  | [] => none
  | (k2, v) :: rest => if k2 = k then some v else dictGet k rest

/-- Python `+=` on result values: addition on counters, concatenation on
lists; mixing the two kinds is a `TypeError` (`none`). -/
def valAdd : Val → Val → Option Val
  | .num a, .num b => some (.num (a + b))
  | .list a, .list b => some (.list (a ++ b))
  | _, _ => none

/-- The empty cumulative result created by the aggregator on its first
call (mongo.py lines 224-232, storage.py lines 408-416). -/
def initialResults : Dict :=
  [("writeErrors", .list []), ("writeConcernErrors", .list []),
   ("nInserted", .num 0), ("nUpserted", .num 0), ("nMatched", .num 0),
   ("nModified", .num 0), ("nRemoved", .num 0)]

/-- `for k in results: results[k] += new_result[k]`: iterate over the
keys of the cumulative result in order; a key missing from the raw
result raises `KeyError`. -/
def mergeInto : Dict → Dict → Except TkError Dict
  | [], _ => .ok []
  | (k, v) :: rest, new =>
    match dictGet k new with
    | none => .error (.keyError k)
    | some w =>
      match valAdd v w with
      | none => .error .typeError
      | some v2 =>
        match mergeInto rest new with
        | .error e => .error e
        | .ok r => .ok ((k, v2) :: r)

/-- `DocumentMixin.tk__persist_many_merge_results(results, new_result)`
(mongo.py lines 210-237): initialize the cumulative result when it is
falsy (`None` or empty), then add the raw result category-wise. -/
def tk__persist_many_merge_results (results : Option Dict) (new_result : Dict) :
    Except TkError Dict :=
  let r := match results with
    | none => initialResults
    | some d => if d.isEmpty then initialResults else d
  mergeInto r new_result

/-- `MongoStorage.format_bulk_update_results(results, new_result)`
(storage.py lines 405-419): same falsy check, same initialization and
the same key-wise `+=` over `new_result.bulk_api_result`; the raw
dictionary here stands for that `bulk_api_result` attribute. -/
def MongoStorage.format_bulk_update_results (results : Option Dict)
    (new_result : Dict) : Except TkError Dict :=
  let r := match results with
    | none => initialResults
    | some d => if d.isEmpty then initialResults else d
  mergeInto r new_result

/-- Merging a sequence of per-chunk raw results, starting from the
absent cumulative result, as the orchestrator loop does when every
chunk succeeds. -/
def mergeAll : Option Dict → List Dict → Except TkError (Option Dict)
  | acc, [] => .ok acc
  | acc, r :: rs =>
    match tk__persist_many_merge_results acc r with
    | .error e => .error e
    | .ok acc2 => mergeAll (some acc2) rs

-- Update-action mapper (`taukit/storage.py`, `taukit/db/mongo.py`) ------------

/-- Mutable per-storage state observed by `Storage.pipe_item`
(storage.py lines 31-60): the item counter and the `count_items`
flag. -/
structure StorageSt where
  items_counter : Nat
  count_items : Bool
deriving DecidableEq, Repr

/-- `Storage.pipe_item(item)` (storage.py lines 55-60): when
`count_items` is set, increment `_items_counter` (and emit a progress
message); the item is returned unchanged. -/
def Storage.pipe_item {δ : Type _} (s : StorageSt) (item : δ) : StorageSt × δ :=
  if s.count_items then (⟨s.items_counter + 1, s.count_items⟩, item)
  else (s, item)

/-- `DBStorage.updater(item)` (storage.py lines 242-249): pipe the item
through `pipe_item`, then the optional `processor`, then the optional
instance-level `_updater`. -/
def DBStorage.updater {δ : Type _} (processor updater0 : Option (δ → δ))
    (s : StorageSt) (item : δ) : StorageSt × δ :=
  let p := Storage.pipe_item s item
  let it2 := match processor with
    | some f => f p.2
    | none => p.2
  let it3 := match updater0 with
    | some f => f it2
    | none => it2
  (p.1, it3)

/-- A record: a Python dictionary from field name to a value of some
value type `V`, as an association list in insertion order. -/
abbrev Rec (V : Type _) := List (String × V)

/-- Record lookup (`dct[k]` / `k in dct`). -/
def recGet {V : Type _} (k : String) : Rec V → Option V
  | [] => none
  | (k2, v) :: rest => if k2 = k then some v else recGet k rest

/-- Python `doc[k] = v`: update in place if the key exists (keeping its
position), otherwise append. -/
def recInsert {V : Type _} (k : String) (v : V) : Rec V → Rec V
  | [] => [(k, v)]
  | (k2, w) :: rest =>
    if k2 = k then (k2, v) :: rest else (k2, w) :: recInsert k v rest

/-- Python `item.pop(k)` key removal (the value itself is read with
`recGet`). -/
def recRemove {V : Type _} (k : String) : Rec V → Rec V
  | [] => []
  | (k2, w) :: rest => if k2 = k then rest else (k2, w) :: recRemove k rest

/-- One field's schema entry as built by `DocumentMixin.get_schema`
(mongo.py lines 78-113): an optional rename target and an optional,
possibly failing, coercion ('coerce' entries such as `int` raise on bad
input). -/
structure FieldSchema (V : Type _) where
  rename : Option String
  coerce : Option (V → Except TkError V)

/-- The model schema: field-name-keyed entries plus the
`_schema_allow_unknown` / `_schema_purge_unknown` class flags
(mongo.py lines 62-63; defaults `False` / `True`). -/
structure ModelSchema (V : Type _) where
  fields : List (String × FieldSchema V)
  allow_unknown : Bool
  purge_unknown : Bool

/-- Schema field lookup. -/
def schemaFind {V : Type _} (k : String) :
    List (String × FieldSchema V) → Option (FieldSchema V)
  | [] => none
  | (k2, fs) :: rest => if k2 = k then some fs else schemaFind k rest

/-- `schema[k]` on the `defaultdict(lambda: {})` built by `get_schema`:
an absent key yields the empty field schema and is inserted. -/
def schemaGet {V : Type _} (s : ModelSchema V) (k : String) :
    FieldSchema V × ModelSchema V :=
  match schemaFind k s.fields with
  | some fs => (fs, s)
  | none =>
    (⟨none, none⟩,
     ⟨s.fields ++ [(k, ⟨none, none⟩)], s.allow_unknown, s.purge_unknown⟩)

/-- The `for k, v in dct.items()` loop of `DocumentMixin.from_dict`
(mongo.py lines 132-145): unknown keys raise `ValueError` or are purged
according to the class flags; a 'rename' entry redirects to the target
field's schema (growing the defaultdict when the target is absent); a
'coerce' entry is applied to the value; the result is written into the
output document. -/
def from_dict_go {V : Type _} (s : ModelSchema V) (doc : Rec V) :
    List (String × V) → Except TkError (Rec V)
  | [] => .ok doc
  | (k, v) :: rest =>
    let known := (schemaFind k s.fields).isSome
    if !known && !s.allow_unknown && !s.purge_unknown then
      .error (.valueError k)
    else if !known && s.purge_unknown then
      from_dict_go s doc rest
    else
      let p1 := schemaGet s k
      let p2 := match p1.1.rename with
        | some r =>
          let q := schemaGet p1.2 r
          (r, q.1, q.2)
        | none => (k, p1.1, p1.2)
      match (match p2.2.1.coerce with
             | some c => c v
             | none => .ok v) with
      | .error e => .error e
      | .ok v2 => from_dict_go p2.2.2 (recInsert p2.1 v2 doc) rest

/-- `DocumentMixin.from_dict(dct, only_dict=True)` (mongo.py lines
115-148): build the output document field by field from the input
record under the class schema. -/
def from_dict {V : Type _} (s : ModelSchema V) (dct : Rec V) :
    Except TkError (Rec V) :=
  from_dict_go s [] dct

/-- A `pymongo.UpdateOne` operation descriptor as constructed by
`MongoStorage.updater` (storage.py lines 362-367): a filter document,
the `$set` payload and the upsert flag. -/
structure UpdateOne (V : Type _) where
  filter : Rec V
  update_set : Rec V
  upsert : Bool
deriving DecidableEq, Repr

/-- `MongoStorage.updater(item, upsert=...)` (storage.py lines 346-368)
in its default configuration (`self._updater is None`): run `from_dict`
with `only_dict=True`, pipe through `DBStorage.updater` (here with no
instance `_updater`, so only `pipe_item` and the optional `processor`
apply), then pop the identity field — a `KeyError` if absent — and
build the upsert descriptor `UpdateOne(filter={id: value},
update={'$set': remaining}, upsert=upsert)`. -/
def MongoStorage.updater {V : Type _} (schema : ModelSchema V)
    (processor : Option (Rec V → Rec V)) (idName : String) (upsert : Bool)
    (s : StorageSt) (item : Rec V) :
    Except TkError (StorageSt × UpdateOne V) :=
  match from_dict schema item with
  | .error e => .error e
  | .ok item1 =>
    let p := DBStorage.updater processor none s item1
    match recGet idName p.2 with
    | none => .error (.keyError idName)
    | some v =>
      .ok (p.1, ⟨[(idName, v)], recRemove idName p.2, upsert⟩)


-- Chunking lemmas -------------------------------------------------------------

theorem slice_chunks_go_join {α : Type _} (n : Int) :
    ∀ (x l : List α), (slice_chunks_go n x l).flatten = l ++ x := by
  intro x
  induction x with
  | nil =>
    intro l
    cases l with
    | nil => simp [slice_chunks_go]
    | cons a t => simp [slice_chunks_go]
  | cons a rest ih =>
    intro l
    simp only [slice_chunks_go]
    by_cases h : ((l ++ [a]).length : Int) ≥ n
    · rw [if_pos h]
      simp [ih]
    · rw [if_neg h]
      simp [ih]

/-- Concatenating the chunks reproduces the input, for every `n`. -/
theorem slice_chunks_join {α : Type _} (x : List α) (n : Int) :
    (slice_chunks x n).flatten = x := by
  simpa [slice_chunks] using slice_chunks_go_join n x []

theorem slice_chunks_go_dropLast {α : Type _} (n : Int) (hn : 0 < n) :
    ∀ (x l : List α), (l.length : Int) < n →
      ∀ c ∈ (slice_chunks_go n x l).dropLast, c.length = n.toNat := by
  intro x
  induction x with
  | nil =>
    intro l _ c hc
    cases l with
    | nil => simp [slice_chunks_go] at hc
    | cons a t => simp [slice_chunks_go] at hc
  | cons a rest ih =>
    intro l hl c hc
    simp only [slice_chunks_go] at hc
    by_cases h : ((l ++ [a]).length : Int) ≥ n
    · rw [if_pos h] at hc
      cases hrest : slice_chunks_go n rest ([] : List α) with
      | nil => rw [hrest] at hc; simp at hc
      | cons b bs =>
        rw [hrest] at hc
        rw [List.dropLast_cons₂] at hc
        rcases List.mem_cons.mp hc with hce | hcm
        · subst hce
          simp only [List.length_append, List.length_cons, List.length_nil] at h ⊢
          omega
        · rw [← hrest] at hcm
          exact ih [] (by simpa using hn) c hcm
    · rw [if_neg h] at hc
      refine ih (l ++ [a]) ?_ c hc
      simp only [List.length_append, List.length_cons, List.length_nil] at h ⊢
      omega

theorem slice_chunks_go_mem_length {α : Type _} (n : Int) (hn : 0 < n) :
    ∀ (x l : List α), (l.length : Int) < n →
      ∀ c ∈ slice_chunks_go n x l, 1 ≤ c.length ∧ c.length ≤ n.toNat := by
  intro x
  induction x with
  | nil =>
    intro l hl c hc
    cases l with
    | nil => simp [slice_chunks_go] at hc
    | cons a t =>
      simp only [slice_chunks_go, List.isEmpty_cons] at hc
      simp only [if_neg Bool.false_ne_true, List.mem_singleton] at hc
      subst hc
      simp only [List.length_cons] at hl ⊢
      constructor
      · omega
      · omega
  | cons a rest ih =>
    intro l hl c hc
    simp only [slice_chunks_go] at hc
    by_cases h : ((l ++ [a]).length : Int) ≥ n
    · rw [if_pos h] at hc
      rcases List.mem_cons.mp hc with hce | hcm
      · subst hce
        simp only [List.length_append, List.length_cons, List.length_nil] at h hl ⊢
        omega
      · exact ih [] (by simpa using hn) c hcm
    · rw [if_neg h] at hc
      refine ih (l ++ [a]) ?_ c hc
      simp only [List.length_append, List.length_cons, List.length_nil] at h ⊢
      omega

theorem slice_chunks_go_length {α : Type _} (n : Int) (hn : 0 < n) :
    ∀ (x l : List α), (l.length : Int) < n →
      (slice_chunks_go n x l).length
        = (l.length + x.length + n.toNat - 1) / n.toNat := by
  have hm : 0 < n.toNat := by omega
  intro x
  induction x with
  | nil =>
    intro l hl
    cases l with
    | nil =>
      have h0 : (0 + 0 + n.toNat - 1) / n.toNat = 0 := Nat.div_eq_of_lt (by omega)
      simpa [slice_chunks_go] using h0.symm
    | cons a t =>
      simp only [List.length_cons] at hl
      have h1 : (t.length + 1 + 0 + n.toNat - 1) / n.toNat = 1 := by
        have h2 : t.length + 1 + 0 + n.toNat - 1 = t.length + n.toNat := by omega
        rw [h2, Nat.add_div_right _ hm, Nat.div_eq_of_lt (by omega)]
      simpa [slice_chunks_go] using h1.symm
  | cons a rest ih =>
    intro l hl
    simp only [slice_chunks_go]
    by_cases h : ((l ++ [a]).length : Int) ≥ n
    · rw [if_pos h]
      simp only [List.length_cons]
      rw [ih [] (by simpa using hn)]
      simp only [List.length_append, List.length_cons, List.length_nil] at h hl ⊢
      have hLm : l.length + 1 = n.toNat := by omega
      have h2 : l.length + (rest.length + 1) + n.toNat - 1
          = (0 + rest.length + n.toNat - 1) + n.toNat := by omega
      rw [h2, Nat.add_div_right _ hm]
    · rw [if_neg h]
      rw [ih (l ++ [a]) (by simp only [List.length_append, List.length_cons,
        List.length_nil] at h ⊢; omega)]
      congr 1
      simp only [List.length_append, List.length_cons, List.length_nil]
      omega

/-- Last element of a non-empty list is a member. -/
theorem mem_getLastD {α : Type _} :
    ∀ (l : List α) (d : α), l ≠ [] → l.getLastD d ∈ l
  | [], _, h => absurd rfl h
  | [a], _, _ => by simp [List.getLastD]
  | a :: b :: t, d, _ => by
    rw [List.getLastD_cons]
    exact List.mem_cons_of_mem _ (mem_getLastD (b :: t) a (by simp))

/-- C4: for a positive chunk size `n` and a non-empty input `x`,
`slice_chunks` yields exactly `ceil(len(x)/n)` groups (written here as
`(len + n - 1) / n`), every group except the last has size `n`, the
last group's size lies in `[1, n]`, concatenating the groups in order
reproduces `x`, and an empty input yields no groups. -/
theorem claim_C4_chunking {α : Type _} (x : List α) (n : Int)
    (hn : 0 < n) (hx : x ≠ []) :
    (slice_chunks x n).length = (x.length + n.toNat - 1) / n.toNat
    ∧ (∀ c ∈ (slice_chunks x n).dropLast, c.length = n.toNat)
    ∧ 1 ≤ ((slice_chunks x n).getLastD []).length
    ∧ ((slice_chunks x n).getLastD []).length ≤ n.toNat
    ∧ (slice_chunks x n).flatten = x
    ∧ slice_chunks ([] : List α) n = [] := by
  have hne : slice_chunks x n ≠ [] := by
    intro h
    have hj := slice_chunks_join x n
    rw [h] at hj
    simp only [List.flatten_nil] at hj
    exact hx hj.symm
  have hmem := mem_getLastD (slice_chunks x n) [] hne
  have hlast := slice_chunks_go_mem_length n hn x []
    (by simpa using hn) _ hmem
  refine ⟨?_, ?_, hlast.1, hlast.2, slice_chunks_join x n, ?_⟩
  · simpa using slice_chunks_go_length n hn x [] (by simpa using hn)
  · intro c hc
    exact slice_chunks_go_dropLast n hn x [] (by simpa using hn) c hc
  · simp [slice_chunks, slice_chunks_go]

theorem claim_C4_witness :
    (0 : Int) < 2 ∧ ([1, 2, 3, 4, 5] : List Nat) ≠ []
    ∧ ((slice_chunks ([1, 2, 3, 4, 5] : List Nat) 2).length
          = (([1, 2, 3, 4, 5] : List Nat).length + (2 : Int).toNat - 1) / (2 : Int).toNat
        ∧ (∀ c ∈ (slice_chunks ([1, 2, 3, 4, 5] : List Nat) 2).dropLast,
            c.length = (2 : Int).toNat)
        ∧ 1 ≤ ((slice_chunks ([1, 2, 3, 4, 5] : List Nat) 2).getLastD []).length
        ∧ ((slice_chunks ([1, 2, 3, 4, 5] : List Nat) 2).getLastD []).length
            ≤ (2 : Int).toNat
        ∧ (slice_chunks ([1, 2, 3, 4, 5] : List Nat) 2).flatten = [1, 2, 3, 4, 5]
        ∧ slice_chunks ([] : List Nat) 2 = []) :=
  ⟨by decide, by decide, claim_C4_chunking [1, 2, 3, 4, 5] 2 (by decide) (by decide)⟩

-- Retry-loop lemmas -----------------------------------------------------------

/-- `k`-fold application of `List.map u`: the batch value after the
mapper has been applied `k` times over. -/
def mapIter {δ : Type _} (u : δ → δ) : Nat → List δ → List δ
  | 0, l => l
  | k + 1, l => mapIter u k (l.map u)

theorem mapUpdater_ok {δ : Type _} (u : δ → δ) (l : List δ) :
    mapUpdater (fun d => .ok (u d)) l = .ok (l.map u) := by
  induction l with
  | nil => rfl
  | cons a t ih => simp [mapUpdater, ih]

/-- With a total mapper and an executor that raises on every call, one
chunk's retry loop performs exactly `fuel` executor calls — attempt `k`
passing the `(k+1)`-times-mapped batch — and re-raises the error of the
last call. -/
theorem attemptLoop_always_error {δ ρ R : Type _} (u : δ → δ)
    (E : Nat → List δ → TkError) (merge : Option R → ρ → Except TkError R) :
    ∀ (fuel : Nat), 0 < fuel → ∀ (baseIdx : Nat) (batch : List δ) (results : Option R),
      attemptLoop (fun d => .ok (u d)) (fun i b => .error (E i b)) merge
          baseIdx fuel batch results
        = (.error (E (baseIdx + fuel - 1) (mapIter u fuel batch)),
           (List.range fuel).map (fun k => mapIter u (k + 1) batch)) := by
  intro fuel
  induction fuel with
  | zero => intro h; exact absurd h (by omega)
  | succ f ih =>
    intro _ baseIdx batch results
    by_cases hf : f = 0
    · subst hf
      have hr1 : List.range 1 = [0] := rfl
      simp [attemptLoop, mapUpdater_ok, mapIter, hr1]
    · have hpos : 0 < f := Nat.pos_of_ne_zero hf
      simp only [attemptLoop, mapUpdater_ok]
      rw [if_neg hf]
      rw [ih hpos (baseIdx + 1) (batch.map u) results]
      simp only [Prod.mk.injEq]
      constructor
      · have harith : baseIdx + 1 + f - 1 = baseIdx + (f + 1) - 1 := by omega
        rw [harith]
        rfl
      · rw [List.range_succ_eq_map, List.map_cons, List.map_map]
        rfl

/-- C1: for an executor that raises on every call and a total mapper,
the retry loop of `DBStorage.bulk_update` performs exactly `n_attempts`
executor calls for the first chunk (the trace has exactly
`n_attempts` entries), then re-raises the error of the last call; the
outcome is that error, so the cumulative result accumulated in the
invocation is never returned to the caller. -/
theorem claim_C1_retry_bound {δ ρ R : Type _} (u : δ → δ)
    (E : Nat → List δ → TkError) (merge : Option R → ρ → Except TkError R)
    (bs ibs : Option Int) (n : Nat) (items : List δ)
    (c : List δ) (rest : List (List δ)) (hn : 0 < n)
    (hc : chunk_items (resolveBatchSize bs ibs) items = c :: rest) :
    bulk_update (fun d => .ok (u d)) (fun i b => .error (E i b)) merge bs ibs n items
      = (.error (E (n - 1) (mapIter u n c)),
         (List.range n).map (fun k => mapIter u (k + 1) c))
    ∧ ∀ (results : Option R) (baseIdx : Nat),
        (chunkLoop (fun d => .ok (u d)) (fun i b => .error (E i b)) merge n
            (c :: rest) results baseIdx).1
          = .error (E (baseIdx + n - 1) (mapIter u n c)) := by
  constructor
  · unfold bulk_update
    rw [hc]
    simp only [chunkLoop]
    rw [attemptLoop_always_error u E merge n hn 0 c none]
    simp
  · intro results baseIdx
    simp only [chunkLoop]
    rw [attemptLoop_always_error u E merge n hn baseIdx c results]

theorem claim_C1_witness :
    0 < 3
    ∧ chunk_items (resolveBatchSize (some 2) none) [1, 2, 3] = [1, 2] :: [[3]]
    ∧ (bulk_update (δ := Nat) (ρ := Nat) (R := Nat) (fun d => .ok d)
        (fun i _ => .error (.storeError i)) (fun _ r => .ok r) (some 2) none 3 [1, 2, 3]
      = (.error (.storeError (3 - 1)),
         (List.range 3).map (fun k => mapIter (fun d => d) (k + 1) [1, 2]))
      ∧ ∀ (results : Option Nat) (baseIdx : Nat),
          (chunkLoop (fun d => Except.ok d)
              (fun i _ => .error (.storeError i)) (fun _ r => Except.ok r) 3
              ([1, 2] :: [[3]]) results baseIdx).1
            = .error (.storeError (baseIdx + 3 - 1))) :=
  ⟨by decide, by decide,
   claim_C1_retry_bound (fun d => d) (fun i _ => .storeError i) (fun _ r => .ok r)
     (some 2) none 3 [1, 2, 3] [1, 2] [[3]] (by decide) (by decide)⟩

/-- C2 (evaluation at the failing input): `DBStorage.bulk_update`
re-binds `batch` to the mapper's output inside the `while` loop, so on
a retry the mapper is re-applied to the already-mapped batch.  With the
mapper `d ↦ d + 1` on the single chunk `[0]` and an executor that
always raises, the three attempts pass `[1]`, `[2]` and `[3]` to the
executor — the attempt-2 batch differs from the attempt-1 batch,
contradicting the claim that retries re-submit the same descriptor
sequence unchanged. -/
theorem claim_C2_remap_on_retry :
    (bulk_update (δ := Nat) (ρ := Nat) (R := Nat)
        (fun d => .ok (d + 1)) (fun _ _ => .error (.storeError 0)) (fun _ r => .ok r)
        (some 0) none 3 [0]).2 = [[1], [2], [3]]
    ∧ (bulk_update (δ := Nat) (ρ := Nat) (R := Nat)
        (fun d => .ok (d + 1)) (fun _ _ => .error (.storeError 0)) (fun _ r => .ok r)
        (some 0) none 3 [0]).1 = .error (.storeError 0)
    ∧ ([[1], [2], [3]] : List (List Nat)).getD 1 [] ≠ ([[1], [2], [3]] : List (List Nat)).getD 0 [] :=
  ⟨rfl, rfl, by decide⟩

/-- The persister retry loop with a chunk on which the mapping hook
raises: every attempt re-runs the hook over the same chunk, performs no
executor call, and the mapping error is caught until the attempts are
exhausted, then raised. -/
theorem pAttemptLoop_hook_error {δ ρ R : Type _} (hook : δ → Except TkError δ)
    (exec : Nat → List δ → Except TkError ρ)
    (merge : Option R → ρ → Except TkError R) (chunk : List δ) (e : TkError)
    (hh : (mapHook hook chunk).1 = .error e) :
    ∀ (fuel : Nat), 0 < fuel → ∀ (results : Option R) (tr : PTrace δ),
      pAttemptLoop hook exec merge fuel chunk results tr
        = (.error e, ⟨tr.hookCalls + fuel * (mapHook hook chunk).2, tr.execCalls⟩) := by
  intro fuel
  induction fuel with
  | zero => intro h; exact absurd h (by omega)
  | succ f ih =>
    intro _ results tr
    by_cases hf : f = 0
    · subst hf
      simp [pAttemptLoop, hh]
    · have hpos : 0 < f := Nat.pos_of_ne_zero hf
      simp only [pAttemptLoop, hh]
      rw [if_neg hf]
      rw [ih hpos results ⟨tr.hookCalls + (mapHook hook chunk).2, tr.execCalls⟩]
      have harith : tr.hookCalls + (mapHook hook chunk).2 + f * (mapHook hook chunk).2
          = tr.hookCalls + (f + 1) * (mapHook hook chunk).2 := by ring
      simp [harith]

/-- C3 (amended): a mapping failure is handled differently on the two
bulk-update paths.  In `DBStorage.bulk_update` the mapper runs outside
the `try`, so the mapping error propagates immediately and uncaught,
with no bulk-write executor call at all.  In `DBPersister.persist_many`
the mapping runs inside `tk__persist_many` inside the `try`, so the
mapping error is caught and the mapper re-invoked on the same chunk on
every one of the `n_attempts` attempts (the hook-call count is
`n_attempts` times the per-pass count) before the error is raised;
no executor call is made for that chunk on this path either. -/
theorem claim_C3_mapping_error_paths {δ ρ R : Type _}
    (updater hook : δ → Except TkError δ)
    (exec : Nat → List δ → Except TkError ρ)
    (merge : Option R → ρ → Except TkError R)
    (b : Int) (ibs : Option Int) (pibs : Int) (n : Nat) (items : List δ)
    (e e2 : TkError) (hb : b ≤ 0) (hn : 0 < n)
    (hm : mapUpdater updater items = .error e)
    (hh : (mapHook hook items).1 = .error e2) :
    bulk_update updater exec merge (some b) ibs n items = (.error e, [])
    ∧ persist_many hook exec merge (some b) pibs n items
        = (.error e2, ⟨n * (mapHook hook items).2, []⟩) := by
  constructor
  · cases n with
    | zero => exact absurd hn (by omega)
    | succ f =>
      simp [bulk_update, resolveBatchSize, chunk_items, hb, chunkLoop, attemptLoop, hm]
  · simp only [persist_many, p_chunk_items, Option.getD_some, if_pos hb, pChunkLoop]
    rw [pAttemptLoop_hook_error hook exec merge items e2 hh n hn none ⟨0, []⟩]
    simp

theorem claim_C3_witness :
    (0 : Int) ≤ 0 ∧ 0 < 3
    ∧ mapUpdater (δ := Nat)
        (fun d => if d = 3 then .error (.keyError "title") else .ok d)
        [0, 1, 2, 3, 4, 5, 6, 7, 8, 9] = .error (.keyError "title")
    ∧ (mapHook (δ := Nat)
        (fun d => if d = 3 then .error (.keyError "title") else .ok d)
        [0, 1, 2, 3, 4, 5, 6, 7, 8, 9]).1 = .error (.keyError "title")
    ∧ (bulk_update (δ := Nat) (ρ := Nat) (R := Nat)
        (fun d => if d = 3 then .error (.keyError "title") else .ok d)
        (fun _ _ => .ok 0) (fun _ r => .ok r) (some 0) none 3
        [0, 1, 2, 3, 4, 5, 6, 7, 8, 9] = (.error (.keyError "title"), [])
      ∧ persist_many (δ := Nat) (ρ := Nat) (R := Nat)
        (fun d => if d = 3 then .error (.keyError "title") else .ok d)
        (fun _ _ => .ok 0) (fun _ r => .ok r) (some 0) 0 3
        [0, 1, 2, 3, 4, 5, 6, 7, 8, 9]
        = (.error (.keyError "title"),
           ⟨3 * (mapHook (δ := Nat)
              (fun d => if d = 3 then .error (.keyError "title") else .ok d)
              [0, 1, 2, 3, 4, 5, 6, 7, 8, 9]).2, []⟩)) :=
  ⟨by decide, by decide, rfl, rfl,
   claim_C3_mapping_error_paths
     (fun d => if d = 3 then .error (.keyError "title") else .ok d)
     (fun d => if d = 3 then .error (.keyError "title") else .ok d)
     (fun _ _ => .ok 0) (fun _ r => .ok r) 0 none 0 3
     [0, 1, 2, 3, 4, 5, 6, 7, 8, 9] (.keyError "title") (.keyError "title")
     (by decide) (by decide) rfl rfl⟩

/-- C3 (counterexample to the claim as stated): on the persister path a
mapping failure on record 3 of a 10-record chunk is caught by the retry
loop and the mapper re-invoked — 12 hook calls in total (three passes
of four), not the single pass of four the claim predicts — before the
mapping error is raised; no executor call is ever made. -/
theorem claim_C3_counterexample :
    persist_many (δ := Nat) (ρ := Nat) (R := Nat)
        (fun d => if d = 3 then .error (.keyError "title") else .ok d)
        (fun _ _ => .ok 0) (fun _ r => .ok r) (some 0) 0 3
        [0, 1, 2, 3, 4, 5, 6, 7, 8, 9]
      = (.error (.keyError "title"), ⟨12, []⟩)
    ∧ (12 : Nat) ≠ 4 :=
  ⟨rfl, by decide⟩

/-- C5: a non-positive chunk size disables chunking — the chunking step
yields exactly one group equal to the whole input — and when the single
executor call succeeds, `bulk_update` makes exactly that one call (the
trace is the singleton of the mapped input) and returns the merged
result. -/
theorem claim_C5_no_chunking {δ ρ R : Type _} (u : δ → δ)
    (exec : Nat → List δ → Except TkError ρ)
    (merge : Option R → ρ → Except TkError R)
    (b : Int) (ibs : Option Int) (r : ρ) (rm : R) (items : List δ) (n : Nat)
    (hb : b ≤ 0) (hne : items ≠ []) (hn : 0 < n)
    (hexec : exec 0 (items.map u) = .ok r)
    (hmerge : merge none r = .ok rm) :
    chunk_items (some b) items = [items]
    ∧ bulk_update (fun d => .ok (u d)) exec merge (some b) ibs n items
        = (.ok (some rm), [items.map u]) := by
  constructor
  · simp [chunk_items, hb]
  · cases n with
    | zero => exact absurd hn (by omega)
    | succ f =>
      simp [bulk_update, resolveBatchSize, chunk_items, hb, chunkLoop,
        attemptLoop, mapUpdater_ok, hexec, hmerge]

theorem claim_C5_witness :
    (0 : Int) ≤ 0 ∧ ([3, 4] : List Nat) ≠ [] ∧ 0 < 3
    ∧ (chunk_items (some 0) ([3, 4] : List Nat) = [[3, 4]]
      ∧ bulk_update (δ := Nat) (ρ := Nat) (R := Nat) (fun d => .ok (d + 1))
          (fun _ _ => Except.ok 9) (fun _ r => Except.ok r) (some 0) none 3 [3, 4]
        = (.ok (some 9), [([3, 4] : List Nat).map (fun d => d + 1)])) :=
  ⟨by decide, by decide, by decide,
   claim_C5_no_chunking (fun d => d + 1) (fun _ _ => Except.ok 9)
     (fun _ r => Except.ok r) 0 none 9 9 [3, 4] 3
     (by decide) (by decide) (by decide) rfl rfl⟩

-- Aggregator lemmas -----------------------------------------------------------

/-- The seven fixed outcome categories, in the initialization order of
the aggregator. -/
def sevenKeys : List String :=
  ["writeErrors", "writeConcernErrors", "nInserted", "nUpserted",
   "nMatched", "nModified", "nRemoved"]

/-- Numeric value of a category of a raw or cumulative result
(0 when absent or of the wrong kind). -/
def numOf (k : String) (d : Dict) : Int :=
  match dictGet k d with
  | some (.num n) => n
  | _ => 0

/-- List value of a category of a raw or cumulative result
(empty when absent or of the wrong kind). -/
def listOf (k : String) (d : Dict) : List String :=
  match dictGet k d with
  | some (.list xs) => xs
  | _ => []

/-- The category is present with a numeric value. -/
def isNumAt (k : String) (d : Dict) : Bool :=
  match dictGet k d with
  | some (.num _) => true
  | _ => false

/-- The category is present with a list value. -/
def isListAt (k : String) (d : Dict) : Bool :=
  match dictGet k d with
  | some (.list _) => true
  | _ => false

/-- A raw result is well formed when it carries all seven categories
with values of the expected kinds (as the driver's `bulk_api_result`
always does). -/
def wellFormedRaw (d : Dict) : Bool :=
  isListAt "writeErrors" d && isListAt "writeConcernErrors" d &&
  isNumAt "nInserted" d && isNumAt "nUpserted" d && isNumAt "nMatched" d &&
  isNumAt "nModified" d && isNumAt "nRemoved" d

/-- A cumulative result in canonical shape: the seven categories in
initialization order with given values. -/
def mkResults (we wce : List String) (ni nu nma nmo nr : Int) : Dict :=
  [("writeErrors", .list we), ("writeConcernErrors", .list wce),
   ("nInserted", .num ni), ("nUpserted", .num nu), ("nMatched", .num nma),
   ("nModified", .num nmo), ("nRemoved", .num nr)]

theorem initialResults_eq : initialResults = mkResults [] [] 0 0 0 0 0 := rfl

theorem isNumAt_spec {k : String} {d : Dict} (h : isNumAt k d = true) :
    dictGet k d = some (.num (numOf k d)) := by
  cases hd : dictGet k d with
  | none => simp [isNumAt, hd] at h
  | some v =>
    cases v with
    | num n => simp [numOf, hd]
    | list xs => simp [isNumAt, hd] at h

theorem isListAt_spec {k : String} {d : Dict} (h : isListAt k d = true) :
    dictGet k d = some (.list (listOf k d)) := by
  cases hd : dictGet k d with
  | none => simp [isListAt, hd] at h
  | some v =>
    cases v with
    | num n => simp [isListAt, hd] at h
    | list xs => simp [listOf, hd]

/-- Key-wise addition of a well-formed raw result into a canonical
cumulative result: numeric categories add, list categories append. -/
theorem mergeInto_mkResults (we wce : List String) (ni nu nma nmo nr : Int)
    (new : Dict) (h : wellFormedRaw new = true) :
    mergeInto (mkResults we wce ni nu nma nmo nr) new
      = .ok (mkResults (we ++ listOf "writeErrors" new)
          (wce ++ listOf "writeConcernErrors" new)
          (ni + numOf "nInserted" new) (nu + numOf "nUpserted" new)
          (nma + numOf "nMatched" new) (nmo + numOf "nModified" new)
          (nr + numOf "nRemoved" new)) := by
  simp only [wellFormedRaw, Bool.and_eq_true] at h
  obtain ⟨⟨⟨⟨⟨⟨h1, h2⟩, h3⟩, h4⟩, h5⟩, h6⟩, h7⟩ := h
  simp [mergeInto, mkResults, valAdd, isListAt_spec h1, isListAt_spec h2,
    isNumAt_spec h3, isNumAt_spec h4, isNumAt_spec h5, isNumAt_spec h6,
    isNumAt_spec h7]

/-- First-call initialization of the aggregator followed by the
key-wise addition. -/
theorem tk_merge_none (new : Dict) (h : wellFormedRaw new = true) :
    tk__persist_many_merge_results none new
      = .ok (mkResults (listOf "writeErrors" new) (listOf "writeConcernErrors" new)
          (numOf "nInserted" new) (numOf "nUpserted" new) (numOf "nMatched" new)
          (numOf "nModified" new) (numOf "nRemoved" new)) := by
  simp only [tk__persist_many_merge_results, initialResults_eq]
  rw [mergeInto_mkResults _ _ _ _ _ _ _ new h]
  simp

/-- Later-call addition into a canonical cumulative result. -/
theorem tk_merge_some (we wce : List String) (ni nu nma nmo nr : Int)
    (new : Dict) (h : wellFormedRaw new = true) :
    tk__persist_many_merge_results (some (mkResults we wce ni nu nma nmo nr)) new
      = .ok (mkResults (we ++ listOf "writeErrors" new)
          (wce ++ listOf "writeConcernErrors" new)
          (ni + numOf "nInserted" new) (nu + numOf "nUpserted" new)
          (nma + numOf "nMatched" new) (nmo + numOf "nModified" new)
          (nr + numOf "nRemoved" new)) := by
  simp only [tk__persist_many_merge_results, mkResults, List.isEmpty_cons]
  exact mergeInto_mkResults we wce ni nu nma nmo nr new h

theorem mergeAll_mkResults :
    ∀ (rs : List Dict), (∀ r ∈ rs, wellFormedRaw r = true) →
      ∀ (we wce : List String) (ni nu nma nmo nr : Int),
      mergeAll (some (mkResults we wce ni nu nma nmo nr)) rs
        = .ok (some (mkResults
            (we ++ (rs.map (listOf "writeErrors")).flatten)
            (wce ++ (rs.map (listOf "writeConcernErrors")).flatten)
            (ni + (rs.map (numOf "nInserted")).sum)
            (nu + (rs.map (numOf "nUpserted")).sum)
            (nma + (rs.map (numOf "nMatched")).sum)
            (nmo + (rs.map (numOf "nModified")).sum)
            (nr + (rs.map (numOf "nRemoved")).sum))) := by
  intro rs
  induction rs with
  | nil => intro _ we wce ni nu nma nmo nr; simp [mergeAll]
  | cons r t ih =>
    intro h we wce ni nu nma nmo nr
    have h1 := tk_merge_some we wce ni nu nma nmo nr r (h r (by simp))
    simp only [mergeAll, h1]
    rw [ih (fun x hx => h x (by simp [hx]))]
    simp [List.append_assoc, add_assoc]

/-- C6: over any non-empty sequence of successfully processed chunks'
well-formed raw results, the cumulative result maps each numeric
category to the sum of the per-chunk values and each error-list
category to the concatenation of the per-chunk lists in chunk order;
`MongoStorage.format_bulk_update_results` performs the same merge as
`DocumentMixin.tk__persist_many_merge_results`. -/
theorem claim_C6_additive_merge (rs : List Dict) (hne : rs ≠ [])
    (h : ∀ r ∈ rs, wellFormedRaw r = true) :
    mergeAll none rs = .ok (some (mkResults
      ((rs.map (listOf "writeErrors")).flatten)
      ((rs.map (listOf "writeConcernErrors")).flatten)
      ((rs.map (numOf "nInserted")).sum) ((rs.map (numOf "nUpserted")).sum)
      ((rs.map (numOf "nMatched")).sum) ((rs.map (numOf "nModified")).sum)
      ((rs.map (numOf "nRemoved")).sum)))
    ∧ ∀ (results : Option Dict) (new : Dict),
        MongoStorage.format_bulk_update_results results new
          = tk__persist_many_merge_results results new := by
  refine ⟨?_, fun _ _ => rfl⟩
  cases rs with
  | nil => exact absurd rfl hne
  | cons r t =>
    have h1 := tk_merge_none r (h r (by simp))
    simp only [mergeAll, h1]
    rw [mergeAll_mkResults t (fun x hx => h x (by simp [hx]))]
    simp [List.append_assoc, add_assoc]

theorem claim_C6_witness :
    ([mkResults [] [] 50 0 0 0 0, mkResults [] [] 50 0 0 0 0] ≠ ([] : List Dict))
    ∧ (∀ r ∈ [mkResults [] [] 50 0 0 0 0, mkResults [] [] 50 0 0 0 0],
        wellFormedRaw r = true)
    ∧ (mergeAll none [mkResults [] [] 50 0 0 0 0, mkResults [] [] 50 0 0 0 0]
        = .ok (some (mkResults
          (([mkResults [] [] 50 0 0 0 0, mkResults [] [] 50 0 0 0 0].map
              (listOf "writeErrors")).flatten)
          (([mkResults [] [] 50 0 0 0 0, mkResults [] [] 50 0 0 0 0].map
              (listOf "writeConcernErrors")).flatten)
          (([mkResults [] [] 50 0 0 0 0, mkResults [] [] 50 0 0 0 0].map
              (numOf "nInserted")).sum)
          (([mkResults [] [] 50 0 0 0 0, mkResults [] [] 50 0 0 0 0].map
              (numOf "nUpserted")).sum)
          (([mkResults [] [] 50 0 0 0 0, mkResults [] [] 50 0 0 0 0].map
              (numOf "nMatched")).sum)
          (([mkResults [] [] 50 0 0 0 0, mkResults [] [] 50 0 0 0 0].map
              (numOf "nModified")).sum)
          (([mkResults [] [] 50 0 0 0 0, mkResults [] [] 50 0 0 0 0].map
              (numOf "nRemoved")).sum)))
      ∧ ∀ (results : Option Dict) (new : Dict),
          MongoStorage.format_bulk_update_results results new
            = tk__persist_many_merge_results results new) :=
  ⟨by decide, by decide,
   claim_C6_additive_merge
     [mkResults [] [] 50 0 0 0 0, mkResults [] [] 50 0 0 0 0]
     (by decide) (by decide)⟩

/-- C9 (counterexample to the claim as stated): for an empty input
iterable and a positive chunk size the orchestrator returns `None` —
the cumulative result is not created before the first chunk, so the
caller does not receive an initialized empty cumulative result. -/
theorem claim_C9_counterexample :
    bulk_update (δ := Nat) (ρ := Dict) (R := Dict) (fun d => .ok d)
        (fun _ _ => .ok initialResults) tk__persist_many_merge_results
        (some 1) none 3 []
      = (.ok none, [])
    ∧ (Except.ok (none : Option Dict) : Except TkError (Option Dict))
        ≠ .ok (some initialResults) :=
  ⟨rfl, by simp⟩

/-- C9 (amended): the cumulative result starts as `None`; the
aggregator creates the fully-initialized category map on its first
invocation — after the first successful chunk — so the first merge of a
well-formed raw result succeeds (no missing-key failure) and yields a
result carrying exactly the initialized categories; for an empty input
iterable with a positive chunk size the orchestrator returns `None`. -/
theorem claim_C9_lazy_init {δ ρ R : Type _} (updater : δ → Except TkError δ)
    (exec : Nat → List δ → Except TkError ρ)
    (merge : Option R → ρ → Except TkError R)
    (b : Int) (ibs : Option Int) (n : Nat) (hb : 0 < b) :
    bulk_update updater exec merge (some b) ibs n ([] : List δ) = (.ok none, [])
    ∧ ∀ new : Dict, wellFormedRaw new = true →
        ∃ out, tk__persist_many_merge_results none new = .ok out
          ∧ out.map Prod.fst = initialResults.map Prod.fst := by
  constructor
  · have hb2 : ¬ (b ≤ 0) := by omega
    simp [bulk_update, resolveBatchSize, chunk_items, hb2, slice_chunks,
      slice_chunks_go, chunkLoop]
  · intro new hw
    exact ⟨_, tk_merge_none new hw, rfl⟩

theorem claim_C9_witness :
    (0 : Int) < 1
    ∧ (bulk_update (δ := Nat) (ρ := Dict) (R := Dict) (fun d => .ok d)
        (fun _ _ => .ok initialResults) tk__persist_many_merge_results
        (some 1) none 3 [] = (.ok none, [])
      ∧ ∀ new : Dict, wellFormedRaw new = true →
          ∃ out, tk__persist_many_merge_results none new = .ok out
            ∧ out.map Prod.fst = initialResults.map Prod.fst) :=
  ⟨by decide,
   claim_C9_lazy_init (fun d => .ok d) (fun _ _ => .ok initialResults)
     tk__persist_many_merge_results 1 none 3 (by decide)⟩

theorem mergeInto_keys : ∀ (d new out : Dict), mergeInto d new = .ok out →
    out.map Prod.fst = d.map Prod.fst := by
  intro d
  induction d with
  | nil =>
    intro new out h
    simp only [mergeInto, Except.ok.injEq] at h
    subst h
    rfl
  | cons p t ih =>
    intro new out h
    cases p with
    | mk k v =>
      simp only [mergeInto] at h
      cases hg : dictGet k new with
      | none => simp [hg] at h
      | some w =>
        simp only [hg] at h
        cases ha : valAdd v w with
        | none => simp [ha] at h
        | some v2 =>
          simp only [ha] at h
          cases hm : mergeInto t new with
          | error e => simp [hm] at h
          | ok r =>
            simp only [hm, Except.ok.injEq] at h
            subst h
            simp [ih new r hm]

theorem dictGet_eq_none_of_not_mem :
    ∀ (k : String) (d : Dict), k ∉ d.map Prod.fst → dictGet k d = none := by
  intro k d
  induction d with
  | nil => intro _; rfl
  | cons p t ih =>
    intro h
    cases p with
    | mk k2 v =>
      simp only [List.map_cons, List.mem_cons] at h
      push_neg at h
      simp only [dictGet]
      rw [if_neg (fun he => h.1 he.symm)]
      exact ih h.2

theorem initialResults_keys : initialResults.map Prod.fst = sevenKeys := rfl

/-- C10: a successful merge into an absent cumulative result, or into
one whose key set is the seven fixed categories, yields a cumulative
result whose key set is again exactly the seven fixed categories; any
category of the raw result outside this set is silently ignored (it
never appears in the cumulative result), because the merge iterates
only over the keys of the existing cumulative result. -/
theorem claim_C10_fixed_key_set (results : Option Dict) (new out : Dict)
    (hres : results = none ∨ ∃ d, results = some d ∧ d.map Prod.fst = sevenKeys)
    (h : tk__persist_many_merge_results results new = .ok out) :
    out.map Prod.fst = sevenKeys
    ∧ ∀ k, k ∉ sevenKeys → dictGet k out = none := by
  have hkeys : out.map Prod.fst = sevenKeys := by
    rcases hres with rfl | ⟨d, rfl, hd⟩
    · have h2 : mergeInto initialResults new = .ok out := h
      rw [mergeInto_keys initialResults new out h2, initialResults_keys]
    · have hdne : d.isEmpty = false := by
        cases d with
        | nil => simp [sevenKeys] at hd
        | cons p t => rfl
      have h2 : mergeInto d new = .ok out := by
        simpa [tk__persist_many_merge_results, hdne] using h
      rw [mergeInto_keys d new out h2, hd]
  exact ⟨hkeys, fun k hk =>
    dictGet_eq_none_of_not_mem k out (by rw [hkeys]; exact hk)⟩

theorem claim_C10_witness :
    ((none : Option Dict) = none
      ∨ ∃ d, (none : Option Dict) = some d ∧ d.map Prod.fst = sevenKeys)
    ∧ tk__persist_many_merge_results none
        (initialResults ++ [("extra", Val.num 5)]) = .ok initialResults
    ∧ (initialResults.map Prod.fst = sevenKeys
      ∧ ∀ k, k ∉ sevenKeys → dictGet k initialResults = none) :=
  ⟨Or.inl rfl, rfl,
   claim_C10_fixed_key_set none (initialResults ++ [("extra", Val.num 5)])
     initialResults (Or.inl rfl) rfl⟩

theorem pipe_item_snd {δ : Type _} (s : StorageSt) (item : δ) :
    (Storage.pipe_item s item).2 = item := by
  unfold Storage.pipe_item
  split <;> rfl

/-- C7: for every record on which `from_dict` succeeds, the default
Mongo update-action mapper produces an upsert descriptor whose filter
is exactly the identity field with the record's identity value and
whose `$set` payload is exactly the remaining fields (the identity
field removed); when the identity field is absent the mapper raises a
`KeyError` for the identity field (the missing-identity-field
error). -/
theorem claim_C7_mongo_updater {V : Type _} (schema : ModelSchema V)
    (idName : String) (upsert : Bool) (s : StorageSt) (item doc : Rec V)
    (hfd : from_dict schema item = .ok doc) :
    (∀ v, recGet idName doc = some v →
        MongoStorage.updater schema none idName upsert s item
          = .ok ((Storage.pipe_item s doc).1,
                 ⟨[(idName, v)], recRemove idName doc, upsert⟩))
    ∧ (recGet idName doc = none →
        MongoStorage.updater schema none idName upsert s item
          = .error (.keyError idName)) := by
  constructor
  · intro v hv
    simp only [MongoStorage.updater, hfd, DBStorage.updater, pipe_item_snd, hv]
  · intro hv
    simp only [MongoStorage.updater, hfd, DBStorage.updater, pipe_item_snd, hv]

theorem claim_C7_witness :
    from_dict (V := Nat)
        ⟨[("title", ⟨none, none⟩), ("rating", ⟨none, none⟩)], false, true⟩
        [("title", 7), ("rating", 1)] = .ok [("title", 7), ("rating", 1)]
    ∧ ((∀ v, recGet "title" ([("title", 7), ("rating", 1)] : Rec Nat) = some v →
          MongoStorage.updater (V := Nat)
              ⟨[("title", ⟨none, none⟩), ("rating", ⟨none, none⟩)], false, true⟩
              none "title" true ⟨0, true⟩ [("title", 7), ("rating", 1)]
            = .ok ((Storage.pipe_item (⟨0, true⟩ : StorageSt)
                      ([("title", 7), ("rating", 1)] : Rec Nat)).1,
                   ⟨[("title", v)],
                    recRemove "title" ([("title", 7), ("rating", 1)] : Rec Nat),
                    true⟩))
      ∧ (recGet "title" ([("title", 7), ("rating", 1)] : Rec Nat) = none →
          MongoStorage.updater (V := Nat)
              ⟨[("title", ⟨none, none⟩), ("rating", ⟨none, none⟩)], false, true⟩
              none "title" true ⟨0, true⟩ [("title", 7), ("rating", 1)]
            = .error (.keyError "title"))) :=
  ⟨rfl,
   claim_C7_mongo_updater
     ⟨[("title", ⟨none, none⟩), ("rating", ⟨none, none⟩)], false, true⟩
     "title" true ⟨0, true⟩ [("title", 7), ("rating", 1)]
     [("title", 7), ("rating", 1)] rfl⟩

/-- C8 (counterexample to the claim as stated): with the default
configuration `count_items = True`, one call of the update-action
mapper `DBStorage.updater` mutates the storage state — the item counter
goes from 0 to 1 — so the mapper is not side-effect-free on the storage
object. -/
theorem claim_C8_counterexample :
    (DBStorage.updater (δ := Nat) none none ⟨0, true⟩ 5).1 = ⟨1, true⟩
    ∧ (⟨1, true⟩ : StorageSt) ≠ ⟨0, true⟩ :=
  ⟨rfl, by decide⟩

/-- C8 (amended): the update-action mapper is deterministic and its
returned value is a pure function of the record and configuration —
independent of the storage state, so two calls on equal records yield
equal descriptors — and the input record is not modified; but the
mapper does mutate the storage state: via `pipe_item` it increments
`_items_counter` exactly when `count_items` is enabled, and leaves the
state unchanged otherwise. -/
theorem claim_C8_mapper_state_effect {δ : Type _}
    (processor updater0 : Option (δ → δ)) (s : StorageSt) (item : δ) :
    (DBStorage.updater processor updater0 s item).1
      = (if s.count_items then ⟨s.items_counter + 1, s.count_items⟩ else s)
    ∧ ∀ s' : StorageSt, (DBStorage.updater processor updater0 s' item).2
        = (DBStorage.updater processor updater0 s item).2 := by
  constructor
  · by_cases hc : s.count_items <;>
      simp [DBStorage.updater, Storage.pipe_item, hc]
  · intro s'
    simp only [DBStorage.updater]
    rw [pipe_item_snd, pipe_item_snd]
